import Mathlib

/-!
Shallow embedding of the cuddle_api peer-signaling and presence relay.

The WebRTC signaling routes keep an in-memory `Map` (`signalingStore`)
with two disjoint key namespaces: a recipient's id string holds the single
pending negotiation message, and the key `"ice-" ++ id` holds the growable
array of ICE-candidate fragments.  We model the two namespaces as the two
fields of `SignalingStore`.  User accounts live in MongoDB; we model the
collection as an association list from id strings to records, mirroring
`User.findById` / `User.findOne` / document saves.
-/

namespace CuddleApi

/-- Identities are opaque id strings (`req.user.id`, `partnerId.toString()`). -/
abbrev UserId := String

/-- The stored user document, restricted to the fields the relay and
presence logic read: `partnerId`, `inviteCode`, `lastActiveAt`, `isOnline`,
`isTyping`, `typingAt`.  Dates are milliseconds since epoch. -/
structure UserRec where
  partnerId : Option UserId
  inviteCode : Option String
  lastActiveAt : Int
  isOnline : Bool
  isTyping : Bool
  typingAt : Option Int
  deriving DecidableEq, Repr

/-- The user collection as an association list keyed by id string. -/
abbrev Db := List (UserId × UserRec)

/-- Models `User.findById`: first record stored under the given id. -/
def findById : Db → UserId → Option UserRec
  | [], _ => none
  | (k, u) :: rest, i => if k = i then some u else findById rest i

/-- Models `User.findOne` by invite code: first record whose invite code matches. -/
def findOneByInvite : Db → String → Option (UserId × UserRec)
  | [], _ => none
  | (k, u) :: rest, c => if u.inviteCode = some c then some (k, u) else findOneByInvite rest c

/-- A document `save` / `findByIdAndUpdate`: replace the record stored
under the given id, leaving the collection unchanged if the id is absent. -/
def updateUser : Db → UserId → UserRec → Db
  | [], _, _ => []
  | (k, u) :: rest, i, v => if k = i then (i, v) :: rest else (k, u) :: updateUser rest i v

/-- Models `user.partnerId` after `User.findById(req.user.id)`: `none` both when the
account is missing and when its partner pointer is null, matching
`if (!user || !user.partnerId)`. -/
def resolvePartner (db : Db) (callerId : UserId) : Option UserId :=
  match findById db callerId with
  | none => none
  | some u => u.partnerId

/-- A pending negotiation message: the discriminated object
`{type, sdp?, from, timestamp}` written into the recipient's slot. -/
inductive Signal where
  | offer (sdp : String) (fromId : UserId) (timestamp : Int)
  | answer (sdp : String) (fromId : UserId) (timestamp : Int)
  | ended (fromId : UserId) (timestamp : Int)
  deriving DecidableEq, Repr

/-- One ICE-candidate fragment `{candidate, from, timestamp}`; the
`candidate` field is whatever the request body carried, possibly absent. -/
structure IceFragment where
  candidate : Option String
  fromId : UserId
  timestamp : Int
  deriving DecidableEq, Repr

/-- The in-memory `signalingStore` Map.  `slots k` models the value at key
`k` (the single negotiation message) and `ice k` the value at key
`"ice-" ++ k` (the candidate array); `none` means the key is absent. -/
structure SignalingStore where
  slots : UserId → Option Signal
  ice : UserId → Option (List IceFragment)

/-- The store at process start: no keys present. -/
def emptyStore : SignalingStore :=
  { slots := fun _ => none, ice := fun _ => none }

/-- Models `signalingStore.set(partnerKey, entry)`: unconditionally replace the
recipient's slot. -/
def setEntry (s : SignalingStore) (recip : UserId) (e : Signal) : SignalingStore :=
  { s with slots := fun k => if k = recip then some e else s.slots k }

/-- Models the candidate append: get the existing array (or a fresh empty
one), push the fragment, and set it back under the ice key; append one fragment to the
recipient's candidate queue, creating it if absent. -/
def appendCandidate (s : SignalingStore) (recip : UserId) (f : IceFragment) : SignalingStore :=
  let existing := (s.ice recip).getD []
  { s with ice := fun k => if k = recip then some (existing ++ [f]) else s.ice k }

/-- Outcome of a send route, as seen by the caller. -/
inductive SendResult where
  | ok
  | missingPayload
  | noPartnerLinked
  deriving DecidableEq, Repr

/-- Route `POST /api/webrtc/offer`: reject a falsy `sdp` (absent or empty string),
then require a resolvable partner, then store the offer in the partner's
slot. -/
def sendOffer (db : Db) (s : SignalingStore) (callerId : UserId)
    (sdp : Option String) (now : Int) : SendResult × SignalingStore :=
  match sdp with
  | none => (.missingPayload, s)
  | some sdpv =>
    if sdpv = "" then (.missingPayload, s)
    else
      match resolvePartner db callerId with
      | none => (.noPartnerLinked, s)
      | some pid => (.ok, setEntry s pid (.offer sdpv callerId now))

/-- Route `POST /api/webrtc/answer`: same shape as the offer route, storing an
answer. -/
def sendAnswer (db : Db) (s : SignalingStore) (callerId : UserId)
    (sdp : Option String) (now : Int) : SendResult × SignalingStore :=
  match sdp with
  | none => (.missingPayload, s)
  | some sdpv =>
    if sdpv = "" then (.missingPayload, s)
    else
      match resolvePartner db callerId with
      | none => (.noPartnerLinked, s)
      | some pid => (.ok, setEntry s pid (.answer sdpv callerId now))

/-- Route `POST /api/webrtc/ice-candidate`: no payload validation at all; require
a resolvable partner, then append the fragment to the partner's queue. -/
def sendCandidate (db : Db) (s : SignalingStore) (callerId : UserId)
    (candidate : Option String) (now : Int) : SendResult × SignalingStore :=
  match resolvePartner db callerId with
  | none => (.noPartnerLinked, s)
  | some pid =>
    (.ok, appendCandidate s pid { candidate := candidate, fromId := callerId, timestamp := now })

/-- Route `POST /api/webrtc/end`: with no resolvable partner the route answers
`{success: true}` without touching the store; otherwise it stores an end
signal in the partner's slot. -/
def sendEnd (db : Db) (s : SignalingStore) (callerId : UserId)
    (now : Int) : SendResult × SignalingStore :=
  match resolvePartner db callerId with
  | none => (.ok, s)
  | some pid => (.ok, setEntry s pid (.ended callerId now))

/-- What one poll hands back: `{signal: signal || null, iceCandidates}`. -/
structure PollResult where
  signal : Option Signal
  iceCandidates : List IceFragment
  deriving DecidableEq, Repr

/-- Route `GET /api/webrtc/poll`: read the caller's slot and candidate queue,
delete the slot key when a signal was present and the ice key when the
queue was non-empty, and return both reads.  The four store accesses run
in one synchronous block of the handler (no `await` between them), so the
whole drain is a single atomic step of the event loop. -/
def poll (s : SignalingStore) (me : UserId) : PollResult × SignalingStore :=
  let signal := s.slots me
  let iceCandidates := (s.ice me).getD []
  let s1 :=
    if signal.isSome then
      { s with slots := fun k => if k = me then none else s.slots k }
    else s
  let s2 :=
    if iceCandidates.length > 0 then
      { s1 with ice := fun k => if k = me then none else s1.ice k }
    else s1
  ({ signal := signal, iceCandidates := iceCandidates }, s2)

/-- The store left behind by a poll from `i`. -/
def drainState (i : UserId) (s : SignalingStore) : SignalingStore :=
  (poll s i).2

/-! ## Presence: GET /api/auth/partner-status -/

/-- Result of the partner-status read. -/
inductive PresenceResult where
  | notConnected
  | connected (isOnline : Bool) (lastActive : Int) (isTyping : Bool)
  deriving DecidableEq, Repr

/-- The comparison `partner.typingAt > typingTimeout` as JavaScript
evaluates it: a null date coerces to 0 before the numeric comparison. -/
def jsDateGt (t : Option Int) (bound : Int) : Bool :=
  decide (t.getD 0 > bound)

/-- Route `GET /api/auth/partner-status`: resolve the caller's partner, then
derive `isOnline` as the sticky flag gated by activity within the last
five minutes, and `isTyping` as the sticky flag gated by a typing
timestamp within the last five seconds, both against `Date.now()`. -/
def partnerStatus (db : Db) (callerId : UserId) (now : Int) : PresenceResult :=
  match findById db callerId with
  | none => .notConnected
  | some u =>
    match u.partnerId with
    | none => .notConnected
    | some pid =>
      match findById db pid with
      | none => .notConnected
      | some p =>
        let fiveMinutesAgo := now - 5 * 60 * 1000
        let isRecentlyActive := decide (p.lastActiveAt > fiveMinutesAgo)
        let typingTimeout := now - 5 * 1000
        let typingNow := p.isTyping && jsDateGt p.typingAt typingTimeout
        .connected (p.isOnline && isRecentlyActive) p.lastActiveAt typingNow

/-! ## Typing updates: POST /api/auth/typing -/

/-- The JavaScript values the `isTyping` request field can carry, to the
granularity the route distinguishes: strict equality with `true` and
truthiness. -/
inductive JsVal where
  | undef
  | nul
  | bool (b : Bool)
  | num (n : Int)
  | str (s : String)
  deriving DecidableEq, Repr

/-- JavaScript truthiness of a request value. -/
def truthy : JsVal → Bool
  | .undef => false
  | .nul => false
  | .bool b => b
  | .num n => decide (n ≠ 0)
  | .str s => decide (s ≠ "")

/-- The strict comparison `isTyping === true`. -/
def strictEqTrue : JsVal → Bool
  | .bool true => true
  | _ => false

/-- The update object of the typing route:
`{ isTyping: isTyping === true, typingAt: isTyping ? new Date() : null }`. -/
def setTypingUpdate (u : UserRec) (v : JsVal) (now : Int) : UserRec :=
  { u with isTyping := strictEqTrue v
           typingAt := if truthy v then some now else none }

/-- Route `POST /api/auth/typing`: `findByIdAndUpdate` with the typing update
object; a missing account leaves the collection unchanged. -/
def typingRoute (db : Db) (callerId : UserId) (v : JsVal) (now : Int) : Db :=
  match findById db callerId with
  | none => db
  | some u => updateUser db callerId (setTypingUpdate u v now)

/-! ## Pairing: POST /api/auth/link-partner -/

/-- Models `inviteCode.toUpperCase()`: character-wise ASCII upper-casing of the
submitted code. -/
def jsToUpper (s : String) : String := ⟨s.data.map Char.toUpper⟩

/-- Outcome of the link-partner route. -/
inductive LinkResult where
  | linked (partnerId : UserId)
  | inviteRequired
  | invalidInvite
  | cannotLinkSelf
  | partnerAlreadyLinked
  | alreadyLinked
  | serverError
  deriving DecidableEq, Repr

/-- Route `POST /api/auth/link-partner`: reject a falsy invite code; look the
partner up by the upper-cased code; refuse self-links and either side
already having a partner; otherwise set both partner pointers and save
both documents.  A missing caller account makes `user.partnerId` throw,
which the catch block turns into a server error with no write. -/
def linkPartner (db : Db) (callerId : UserId) (code : Option String) : LinkResult × Db :=
  match code with
  | none => (.inviteRequired, db)
  | some c =>
    if c = "" then (.inviteRequired, db)
    else
      match findOneByInvite db (jsToUpper c) with
      | none => (.invalidInvite, db)
      | some (pid, p) =>
        if pid = callerId then (.cannotLinkSelf, db)
        else if p.partnerId.isSome then (.partnerAlreadyLinked, db)
        else
          match findById db callerId with
          | none => (.serverError, db)
          | some u =>
            if u.partnerId.isSome then (.alreadyLinked, db)
            else
              let db1 := updateUser db callerId { u with partnerId := some pid }
              let db2 := updateUser db1 pid { p with partnerId := some callerId }
              (.linked pid, db2)

/-- A freshly registered user document: partner pointer null, offline,
not typing. -/
def newUser (code : Option String) (now : Int) : UserRec :=
  { partnerId := none, inviteCode := code, lastActiveAt := now,
    isOnline := false, isTyping := false, typingAt := none }

/-- The id strings under which records are stored. -/
def dbKeys (db : Db) : List UserId := db.map Prod.fst

/-- The user collections the routes can produce: the empty collection,
registration of a fresh id with a null partner pointer, any update that
keeps the partner pointer (login, logout, heartbeat, /me, typing, invite
generation), and the link-partner route. -/
inductive Reach : Db → Prop where
  | start : Reach []
  | register (db : Db) (id : UserId) (code : Option String) (now : Int) :
      Reach db → findById db id = none → Reach ((id, newUser code now) :: db)
  | presenceUpdate (db : Db) (id : UserId) (u v : UserRec) :
      Reach db → findById db id = some u → v.partnerId = u.partnerId →
      Reach (updateUser db id v)
  | link (db : Db) (caller : UserId) (code : Option String) :
      Reach db → Reach (linkPartner db caller code).2

/-- Mutual consistency of partner pointers: a partner pointer never aims at
its own record, and always has a matching pointer back. -/
def PairingOk (db : Db) : Prop :=
  ∀ a b u, findById db a = some u → u.partnerId = some b →
    a ≠ b ∧ ∃ v, findById db b = some v ∧ v.partnerId = some a

/-! ## Store lemmas -/

theorem poll_fst (s : SignalingStore) (i : UserId) :
    (poll s i).1 = { signal := s.slots i, iceCandidates := (s.ice i).getD [] } := rfl

theorem slots_appendCandidate (s : SignalingStore) (r : UserId) (f : IceFragment) :
    (appendCandidate s r f).slots = s.slots := rfl

theorem ice_setEntry (s : SignalingStore) (r : UserId) (e : Signal) :
    (setEntry s r e).ice = s.ice := rfl

theorem slots_setEntry_self (s : SignalingStore) (r : UserId) (e : Signal) :
    (setEntry s r e).slots r = some e := by
  simp [setEntry]

theorem ice_appendCandidate_self (s : SignalingStore) (r : UserId) (f : IceFragment) :
    (appendCandidate s r f).ice r = some ((s.ice r).getD [] ++ [f]) := by
  simp [appendCandidate]

theorem drainState_slots_self (s : SignalingStore) (i : UserId) :
    (drainState i s).slots i = none := by
  unfold drainState poll
  by_cases h : (s.slots i).isSome
  · by_cases h2 : ((s.ice i).getD []).length > 0 <;> simp [h, h2]
  · by_cases h2 : ((s.ice i).getD []).length > 0 <;>
      simp [h, h2, Option.not_isSome_iff_eq_none.mp h]

theorem drainState_ice_self (s : SignalingStore) (i : UserId) :
    ((drainState i s).ice i).getD [] = [] := by
  unfold drainState poll
  by_cases hice : (s.ice i).getD [] = []
  · have hlen : ¬ ((s.ice i).getD []).length > 0 := by simp [hice]
    by_cases h : (s.slots i).isSome <;> simp [h, hlen, hice]
  · have hlen : ((s.ice i).getD []).length > 0 := by
      cases hmm : (s.ice i).getD [] with
      | nil => exact absurd hmm hice
      | cons a l => simp
    by_cases h : (s.slots i).isSome <;> simp [h, hlen]

theorem poll_of_cleared (s : SignalingStore) (i : UserId)
    (h1 : s.slots i = none) (h2 : (s.ice i).getD [] = []) :
    poll s i = ({ signal := none, iceCandidates := [] }, s) := by
  unfold poll
  simp [h1, h2]

theorem drainState_of_cleared (s : SignalingStore) (i : UserId)
    (h1 : s.slots i = none) (h2 : (s.ice i).getD [] = []) :
    drainState i s = s := by
  unfold drainState
  rw [poll_of_cleared s i h1 h2]

theorem poll_iterate_cleared (s : SignalingStore) (i : UserId)
    (h1 : s.slots i = none) (h2 : (s.ice i).getD [] = []) (n : ℕ) :
    (poll ((drainState i)^[n] s) i).1 = { signal := none, iceCandidates := [] } := by
  rw [Function.iterate_fixed (drainState_of_cleared s i h1 h2) n,
    poll_of_cleared s i h1 h2]

theorem resolvePartner_of_found (db : Db) (a : UserId) (u : UserRec)
    (h : findById db a = some u) : resolvePartner db a = u.partnerId := by
  simp [resolvePartner, h]

theorem poll_fst_signal (s : SignalingStore) (i : UserId) :
    (poll s i).1.signal = s.slots i := rfl

theorem poll_fst_ice (s : SignalingStore) (i : UserId) :
    (poll s i).1.iceCandidates = (s.ice i).getD [] := rfl

theorem ice_append_fold (fs : List IceFragment) (s : SignalingStore) (r : UserId) :
    ((fs.foldl (fun st f => appendCandidate st r f) s).ice r).getD []
      = (s.ice r).getD [] ++ fs := by
  induction fs generalizing s with
  | nil => simp
  | cons f fs ih =>
    rw [List.foldl_cons, ih]
    simp [appendCandidate]

theorem slots_setEntry_fold (ws : List Signal) (s : SignalingStore) (r : UserId)
    (h : ws ≠ []) :
    (ws.foldl (fun st e => setEntry st r e) s).slots r = some (ws.getLast h) := by
  induction ws generalizing s with
  | nil => exact absurd rfl h
  | cons w rest ih =>
    cases rest with
    | nil => simp [slots_setEntry_self]
    | cons b l =>
      rw [List.foldl_cons, ih (setEntry s r w) (by simp)]
      congr 1

/-! ## Claims -/

/-- Claim C1: with A and B mutually paired, an offer sent by A with payload
`p` and then polled by B with no intervening writes is delivered as exactly
`{type: offer, sdp: p, from: A}` with A's send timestamp; the poll removes
the entry, and every subsequent poll by B with no intervening writes
returns no entry and an empty candidate sequence.  The payload is required
to be non-empty because the route treats an empty string as an absent
payload. -/
theorem offer_then_poll_delivers_and_clears
    (db : Db) (s0 : SignalingStore) (A B : UserId) (uA uB : UserRec)
    (p : String) (t : Int)
    (hA : findById db A = some uA) (hAp : uA.partnerId = some B)
    (hB : findById db B = some uB) (hBp : uB.partnerId = some A)
    (hp : p ≠ "") :
    (sendOffer db s0 A (some p) t).1 = SendResult.ok ∧
    (poll (sendOffer db s0 A (some p) t).2 B).1.signal = some (Signal.offer p A t) ∧
    ((poll (sendOffer db s0 A (some p) t).2 B).2).slots B = none ∧
    ∀ n : ℕ,
      (poll ((drainState B)^[n] ((poll (sendOffer db s0 A (some p) t).2 B).2)) B).1 =
        { signal := none, iceCandidates := [] } := by
  have hres : resolvePartner db A = some B := by
    rw [resolvePartner_of_found db A uA hA, hAp]
  have hsend : sendOffer db s0 A (some p) t = (.ok, setEntry s0 B (.offer p A t)) := by
    simp [sendOffer, hres, hp]
  refine ⟨by rw [hsend], ?_, ?_, ?_⟩
  · rw [hsend, poll_fst]
    simp [setEntry]
  · rw [hsend]
    exact drainState_slots_self _ B
  · intro n
    rw [hsend]
    exact poll_iterate_cleared _ B (drainState_slots_self _ B) (drainState_ice_self _ B) n

/-- The paired test fixtures: `"a"` and `"b"` point at each other. -/
def alice : UserRec :=
  { partnerId := some "b", inviteCode := some "CODEA", lastActiveAt := 0,
    isOnline := true, isTyping := false, typingAt := none }

def bob : UserRec :=
  { partnerId := some "a", inviteCode := some "CODEB", lastActiveAt := 0,
    isOnline := true, isTyping := false, typingAt := none }

def dbPair : Db := [("a", alice), ("b", bob)]

/-- Witness for C1 at a concrete pair of accounts and payload. -/
theorem offer_then_poll_delivers_and_clears_witness :
    (sendOffer dbPair emptyStore "a" (some "sdp-payload") 7).1 = SendResult.ok ∧
    (poll (sendOffer dbPair emptyStore "a" (some "sdp-payload") 7).2 "b").1.signal =
      some (Signal.offer "sdp-payload" "a" 7) := by
  have h := offer_then_poll_delivers_and_clears dbPair emptyStore "a" "b" alice bob
    "sdp-payload" 7 (by decide) rfl (by decide) rfl (by decide)
  exact ⟨h.1, h.2.1⟩

/-- Claim C2: with the recipient's candidate queue clean (never written or
fully drained), appending N fragments and then draining returns all N in
append order, and a drain immediately after (with no intervening appends)
returns an empty sequence. -/
theorem candidates_drain_in_order (s0 : SignalingStore) (R : UserId)
    (fs : List IceFragment) (h : (s0.ice R).getD [] = []) :
    (poll (fs.foldl (fun st f => appendCandidate st R f) s0) R).1.iceCandidates = fs ∧
    (poll (drainState R (fs.foldl (fun st f => appendCandidate st R f) s0)) R).1.iceCandidates
      = [] := by
  constructor
  · rw [poll_fst_ice, ice_append_fold, h]
    simp
  · rw [poll_fst_ice]
    exact drainState_ice_self _ R

/-- Two concrete candidate fragments. -/
def frag1 : IceFragment := { candidate := some "cand-1", fromId := "a", timestamp := 1 }

def frag2 : IceFragment := { candidate := some "cand-2", fromId := "a", timestamp := 2 }

/-- Witness for C2 with two fragments appended to a fresh store. -/
theorem candidates_drain_in_order_witness :
    (poll ([frag1, frag2].foldl (fun st f => appendCandidate st "b" f) emptyStore) "b").1.iceCandidates
      = [frag1, frag2] ∧
    (poll (drainState "b" ([frag1, frag2].foldl (fun st f => appendCandidate st "b" f) emptyStore)) "b").1.iceCandidates
      = [] :=
  candidates_drain_in_order emptyStore "b" [frag1, frag2] rfl

/-- Claim C3: any non-empty sequence of slot writes into B's mailbox before
B polls leaves exactly the last-written entry, and B's poll returns only
that entry; in particular two rapid offers from a paired A deliver only the
second. -/
theorem last_write_wins
    (db : Db) (s0 : SignalingStore) (A B : UserId) (uA : UserRec)
    (ws : List Signal) (hws : ws ≠ [])
    (p1 p2 : String) (t1 t2 : Int)
    (hA : findById db A = some uA) (hAp : uA.partnerId = some B)
    (hp1 : p1 ≠ "") (hp2 : p2 ≠ "") :
    (ws.foldl (fun st e => setEntry st B e) s0).slots B = some (ws.getLast hws) ∧
    (poll (ws.foldl (fun st e => setEntry st B e) s0) B).1.signal = some (ws.getLast hws) ∧
    (poll (sendOffer db (sendOffer db s0 A (some p1) t1).2 A (some p2) t2).2 B).1.signal =
      some (Signal.offer p2 A t2) := by
  have hres : resolvePartner db A = some B := by
    rw [resolvePartner_of_found db A uA hA, hAp]
  have hsend1 : sendOffer db s0 A (some p1) t1 = (.ok, setEntry s0 B (.offer p1 A t1)) := by
    simp [sendOffer, hres, hp1]
  have hsend2 : sendOffer db (setEntry s0 B (.offer p1 A t1)) A (some p2) t2 =
      (.ok, setEntry (setEntry s0 B (.offer p1 A t1)) B (.offer p2 A t2)) := by
    simp [sendOffer, hres, hp2]
  refine ⟨slots_setEntry_fold ws s0 B hws, ?_, ?_⟩
  · rw [poll_fst_signal]
    exact slots_setEntry_fold ws s0 B hws
  · rw [hsend1, hsend2, poll_fst_signal]
    exact slots_setEntry_self _ B _

/-- Witness for C3: an offer overwritten by an answer, and two rapid
offers, both resolved at concrete inputs. -/
theorem last_write_wins_witness :
    ([Signal.offer "x" "a" 1, Signal.answer "y" "a" 2].foldl
        (fun st e => setEntry st "b" e) emptyStore).slots "b" =
      some (Signal.answer "y" "a" 2) ∧
    (poll (sendOffer dbPair (sendOffer dbPair emptyStore "a" (some "p1") 1).2
        "a" (some "p2") 2).2 "b").1.signal = some (Signal.offer "p2" "a" 2) := by
  have h := last_write_wins dbPair emptyStore "a" "b" alice
    [Signal.offer "x" "a" 1, Signal.answer "y" "a" 2] (by decide)
    "p1" "p2" 1 2 (by decide) rfl (by decide) (by decide)
  exact ⟨h.1, h.2.2⟩

/-- An account with no partner linked. -/
def carol : UserRec := newUser (some "CODECCCC") 0

def dbSolo : Db := [("c", carol)]

/-- Counterexample to C4 as stated: the offer route validates the payload
before the pairing precondition, so an unpaired caller whose payload is
absent fails with `MissingPayload`, not `NoPartnerLinked`. -/
theorem unpaired_send_counterexample :
    (sendOffer dbSolo emptyStore "c" none 0).1 = SendResult.missingPayload ∧
    SendResult.missingPayload ≠ SendResult.noPartnerLinked :=
  ⟨rfl, by decide⟩

/-- Claim C4 (amended): for a caller with no resolvable partner,
`sendCandidate` always fails with `NoPartnerLinked`, and `sendOffer` /
`sendAnswer` do so whenever their payload is present (non-empty); with the
payload absent or empty they fail with `MissingPayload` instead.  In every
case the store — all recipients' slots and queues — is returned exactly as
it was. -/
theorem unpaired_send_rejected
    (db : Db) (s : SignalingStore) (caller : UserId) (now : Int)
    (h : resolvePartner db caller = none) :
    (∀ p : String, p ≠ "" →
      sendOffer db s caller (some p) now = (SendResult.noPartnerLinked, s)) ∧
    (∀ p : String, p ≠ "" →
      sendAnswer db s caller (some p) now = (SendResult.noPartnerLinked, s)) ∧
    (∀ c : Option String,
      sendCandidate db s caller c now = (SendResult.noPartnerLinked, s)) ∧
    sendOffer db s caller none now = (SendResult.missingPayload, s) ∧
    sendOffer db s caller (some "") now = (SendResult.missingPayload, s) ∧
    sendAnswer db s caller none now = (SendResult.missingPayload, s) ∧
    sendAnswer db s caller (some "") now = (SendResult.missingPayload, s) := by
  refine ⟨?_, ?_, ?_, ?_, ?_, ?_, ?_⟩
  · intro p hp
    simp [sendOffer, h, hp]
  · intro p hp
    simp [sendAnswer, h, hp]
  · intro c
    simp [sendCandidate, h]
  · rfl
  · simp [sendOffer]
  · rfl
  · simp [sendAnswer]

/-- Witness for the amended C4 at a concrete unpaired account. -/
theorem unpaired_send_rejected_witness :
    sendOffer dbSolo emptyStore "c" (some "x") 0 = (SendResult.noPartnerLinked, emptyStore) ∧
    sendCandidate dbSolo emptyStore "c" (some "x") 0 = (SendResult.noPartnerLinked, emptyStore) := by
  have h := unpaired_send_rejected dbSolo emptyStore "c" 0 rfl
  exact ⟨h.1 "x" (by decide), h.2.2.1 (some "x")⟩

/-- Claim C6: for a paired caller, offer and answer with an absent (or
empty, which the route cannot distinguish from absent) payload fail with
`MissingPayload` and leave the store untouched, while the candidate route
never validates its payload: it acknowledges success even with the
fragment absent. -/
theorem payload_validation_asymmetry
    (db : Db) (s : SignalingStore) (caller pid : UserId) (now : Int)
    (h : resolvePartner db caller = some pid) :
    sendOffer db s caller none now = (SendResult.missingPayload, s) ∧
    sendOffer db s caller (some "") now = (SendResult.missingPayload, s) ∧
    sendAnswer db s caller none now = (SendResult.missingPayload, s) ∧
    sendAnswer db s caller (some "") now = (SendResult.missingPayload, s) ∧
    (∀ c : Option String, (sendCandidate db s caller c now).1 = SendResult.ok) ∧
    (sendCandidate db s caller none now).1 ≠ SendResult.missingPayload := by
  refine ⟨rfl, by simp [sendOffer], rfl, by simp [sendAnswer], ?_, ?_⟩
  · intro c
    simp [sendCandidate, h]
  · simp [sendCandidate, h]

/-- Witness for C6 at the concrete paired accounts. -/
theorem payload_validation_asymmetry_witness :
    sendOffer dbPair emptyStore "a" none 0 = (SendResult.missingPayload, emptyStore) ∧
    (sendCandidate dbPair emptyStore "a" none 0).1 = SendResult.ok := by
  have h := payload_validation_asymmetry dbPair emptyStore "a" "b" 0 rfl
  exact ⟨h.1, h.2.2.2.2.1 none⟩

/-- Claim C7: the end route is the one tolerant send: with no resolvable
partner it acknowledges success and returns the store exactly as it was. -/
theorem unpaired_end_tolerated
    (db : Db) (s : SignalingStore) (caller : UserId) (now : Int)
    (h : resolvePartner db caller = none) :
    sendEnd db s caller now = (SendResult.ok, s) := by
  simp [sendEnd, h]

/-- Witness for C7 at a concrete unpaired account. -/
theorem unpaired_end_tolerated_witness :
    sendEnd dbSolo emptyStore "c" 0 = (SendResult.ok, emptyStore) :=
  unpaired_end_tolerated dbSolo emptyStore "c" 0 rfl

/-- Claim C9: the drain is one atomic step — the poll handler touches the
store in a single synchronous block, so in the interleaving semantics each
whole drain is one transition.  A slot write or candidate append that lands
strictly before a drain is observed by that drain, and one that lands
strictly after a drain's removal survives intact to the next drain. -/
theorem drain_atomic (s : SignalingStore) (r : UserId) (e : Signal) (f : IceFragment) :
    (poll (setEntry s r e) r).1.signal = some e ∧
    (poll (appendCandidate s r f) r).1.iceCandidates = (s.ice r).getD [] ++ [f] ∧
    (poll (setEntry (drainState r s) r e) r).1.signal = some e ∧
    (poll (appendCandidate (drainState r s) r f) r).1.iceCandidates = [f] := by
  refine ⟨?_, ?_, ?_, ?_⟩
  · rw [poll_fst_signal]
    exact slots_setEntry_self s r e
  · rw [poll_fst_ice, ice_appendCandidate_self]
    rfl
  · rw [poll_fst_signal]
    exact slots_setEntry_self _ r e
  · rw [poll_fst_ice, ice_appendCandidate_self, drainState_ice_self]
    rfl

/-! ## User-collection lemmas -/

theorem findById_updateUser (db : Db) (i : UserId) (v : UserRec) (j : UserId) :
    findById (updateUser db i v) j =
      if j = i then (findById db i).map (fun _ => v) else findById db j := by
  induction db with
  | nil => by_cases h : j = i <;> simp [updateUser, findById, h]
  | cons kv rest ih =>
    obtain ⟨k, u⟩ := kv
    by_cases hk : k = i
    · subst hk
      by_cases hj : j = k
      · simp [updateUser, findById, hj]
      · have hkj : ¬ k = j := fun hcontra => hj hcontra.symm
        simp [updateUser, findById, hj, hkj]
    · by_cases hj : j = k
      · subst hj
        simp [updateUser, findById, hk, Ne.symm hk]
      · have hkj : ¬ k = j := fun hcontra => hj hcontra.symm
        simp [updateUser, findById, hk, hkj, ih]

theorem dbKeys_updateUser (db : Db) (i : UserId) (v : UserRec) :
    dbKeys (updateUser db i v) = dbKeys db := by
  induction db with
  | nil => rfl
  | cons kv rest ih =>
    obtain ⟨k, u⟩ := kv
    by_cases hk : k = i
    · subst hk
      simp [updateUser, dbKeys]
    · simp only [updateUser, hk, if_neg hk, dbKeys, List.map_cons]
      exact congrArg _ ih

theorem mem_dbKeys_of_findById (db : Db) (i : UserId) (u : UserRec)
    (h : findById db i = some u) : i ∈ dbKeys db := by
  induction db with
  | nil => simp [findById] at h
  | cons kv rest ih =>
    obtain ⟨k, w⟩ := kv
    by_cases hk : k = i
    · subst hk
      simp [dbKeys]
    · simp only [findById, if_neg hk] at h
      simp only [dbKeys, List.map_cons, List.mem_cons]
      exact Or.inr (ih h)

theorem findById_of_invite (db : Db) (c : String) (pid : UserId) (p : UserRec)
    (hnd : (dbKeys db).Nodup) (h : findOneByInvite db c = some (pid, p)) :
    findById db pid = some p := by
  induction db with
  | nil => simp [findOneByInvite] at h
  | cons kv rest ih =>
    obtain ⟨k, u⟩ := kv
    simp only [dbKeys, List.map_cons, List.nodup_cons] at hnd
    by_cases hc : u.inviteCode = some c
    · simp only [findOneByInvite, if_pos hc] at h
      obtain ⟨h1, h2⟩ := Prod.mk.injEq .. ▸ Option.some.injEq .. ▸ h
      cases h
      simp [findById]
    · simp only [findOneByInvite, if_neg hc] at h
      have hmem : pid ∈ dbKeys rest := by
        have := ih hnd.2 h
        exact mem_dbKeys_of_findById rest pid p this
      have hk : ¬ k = pid := fun he => hnd.1 (he ▸ hmem)
      simp only [findById, if_neg hk]
      exact ih hnd.2 h

/-! ## Presence claims -/

/-- Claim C5: partner-status reports the derived booleans of the sticky
flags gated by elapsed time at the moment of the call — online iff the
sticky flag holds and the last activity is less than five minutes old,
typing iff the sticky flag holds and the typing timestamp is less than
five seconds old; in particular five minutes and one second after the last
activity the derived online verdict is false although the sticky flag was
never cleared. -/
theorem presence_derived
    (db : Db) (P X : UserId) (up ux : UserRec) (tt now : Int)
    (hP : findById db P = some up) (hPp : up.partnerId = some X)
    (hX : findById db X = some ux) (hXp : ux.partnerId = some P)
    (htt : ux.typingAt = some tt) :
    partnerStatus db P now =
      PresenceResult.connected
        (ux.isOnline && decide (now - ux.lastActiveAt < 5 * 60 * 1000))
        ux.lastActiveAt
        (ux.isTyping && decide (now - tt < 5 * 1000)) ∧
    (now = ux.lastActiveAt + 5 * 60 * 1000 + 1000 →
      partnerStatus db P now =
        PresenceResult.connected false ux.lastActiveAt
          (ux.isTyping && decide (now - tt < 5 * 1000))) := by
  have hmain : partnerStatus db P now =
      PresenceResult.connected
        (ux.isOnline && decide (now - ux.lastActiveAt < 5 * 60 * 1000))
        ux.lastActiveAt
        (ux.isTyping && decide (now - tt < 5 * 1000)) := by
    simp only [partnerStatus, hP, hPp, hX, jsDateGt, htt, Option.getD_some]
    congr 1
    · congr 1
      rw [decide_eq_decide]
      omega
    · congr 1
      rw [decide_eq_decide]
      omega
  refine ⟨hmain, fun hnow => ?_⟩
  rw [hmain]
  congr 1
  have hlt : ¬ (now - ux.lastActiveAt < 5 * 60 * 1000) := by omega
  simp [hlt]
  intro _
  omega

/-- Mutually paired presence fixtures with typing state set. -/
def dana : UserRec :=
  { partnerId := some "e", inviteCode := none, lastActiveAt := 100,
    isOnline := true, isTyping := true, typingAt := some 100 }

def erin : UserRec :=
  { partnerId := some "d", inviteCode := none, lastActiveAt := 100,
    isOnline := true, isTyping := true, typingAt := some 100 }

def dbPresence : Db := [("d", dana), ("e", erin)]

/-- Witness for C5: five minutes and one second after the partner's last
activity the derived verdicts are both false though both sticky flags are
still set. -/
theorem presence_derived_witness :
    partnerStatus dbPresence "d" 301100 = PresenceResult.connected false 100 false := by
  have h := presence_derived dbPresence "d" "e" dana erin 100 301100
    (by decide) rfl (by decide) rfl rfl
  exact (h.2 (by decide)).trans (by decide)

/-- Counterexample to C10 as stated: the route writes
`typingAt: isTyping ? new Date() : null` using plain truthiness, so a
truthy non-boolean such as the number 1 stores `isTyping = false` but sets
`typingAt` to the current time instead of clearing it to null. -/
theorem typing_truthy_counterexample :
    (findById (typingRoute dbSolo "c" (JsVal.num 1) 5) "c").map UserRec.typingAt
      = some (some 5) ∧
    (findById (typingRoute dbSolo "c" (JsVal.num 1) 5) "c").map UserRec.isTyping
      = some false ∧
    (some (5 : Int) : Option Int) ≠ none := by
  refine ⟨by decide, by decide, by decide⟩

/-- Claim C10 (amended): the typing route stores `is_typing = true` exactly
when the request value is strictly the boolean `true`; any other value
stores `is_typing = false`, but `typing_at` is cleared to null only when
the value is falsy — a truthy non-boolean sets `typing_at = now` while
`is_typing` stays false.  In every non-`true` case the derived typing
verdict the partner subsequently reads is false. -/
theorem typing_update_behavior
    (db : Db) (caller : UserId) (u : UserRec) (v : JsVal) (now : Int)
    (hu : findById db caller = some u) :
    findById (typingRoute db caller v now) caller =
      some { u with isTyping := strictEqTrue v
                    typingAt := if truthy v then some now else none } ∧
    (v = JsVal.bool true → strictEqTrue v = true ∧ truthy v = true) ∧
    (v ≠ JsVal.bool true → strictEqTrue v = false) ∧
    (∀ P up now2, P ≠ caller → findById db P = some up → up.partnerId = some caller →
      v ≠ JsVal.bool true →
      ∃ b l, partnerStatus (typingRoute db caller v now) P now2 =
        PresenceResult.connected b l false) := by
  have hstrict : ∀ hv : v ≠ JsVal.bool true, strictEqTrue v = false := by
    intro hv
    cases v with
    | bool b => cases b with
      | true => exact absurd rfl hv
      | false => rfl
    | undef => rfl
    | nul => rfl
    | num n => rfl
    | str s => rfl
  have hupd : findById (typingRoute db caller v now) caller =
      some (setTypingUpdate u v now) := by
    rw [typingRoute, hu, findById_updateUser, if_pos rfl, hu]
    rfl
  refine ⟨hupd, fun hv => by rw [hv]; exact ⟨rfl, rfl⟩, hstrict, ?_⟩
  intro P up now2 hPc hP hPp hv
  have hPkeep : findById (typingRoute db caller v now) P = findById db P := by
    rw [typingRoute, hu, findById_updateUser, if_neg hPc]
  refine ⟨(setTypingUpdate u v now).isOnline &&
      decide ((setTypingUpdate u v now).lastActiveAt > now2 - 5 * 60 * 1000),
    (setTypingUpdate u v now).lastActiveAt, ?_⟩
  rw [partnerStatus, hPkeep, hP]
  simp only [hPp, hupd]
  have : (setTypingUpdate u v now).isTyping = false := by
    rw [setTypingUpdate]
    exact hstrict hv
  simp [this]

/-- Witness for the amended C10: a truthy string stores a cleared sticky
flag with a fresh typing timestamp, and the partner's derived typing
verdict is false. -/
theorem typing_update_behavior_witness :
    findById (typingRoute dbPresence "e" (JsVal.str "yes") 7) "e" =
      some { erin with isTyping := false, typingAt := some 7 } ∧
    ∃ b l, partnerStatus (typingRoute dbPresence "e" (JsVal.str "yes") 7) "d" 10 =
      PresenceResult.connected b l false := by
  have h := typing_update_behavior dbPresence "e" erin (JsVal.str "yes") 7 (by decide)
  refine ⟨h.1.trans (by decide), ?_⟩
  exact h.2.2.2 "d" dana 10 (by decide) (by decide) rfl (by decide)

/-! ## The pairing invariant -/

/-- The invariant carried through every reachable user collection: ids are
stored at most once, and partner pointers are anti-reflexive and mutually
consistent. -/
def Inv (db : Db) : Prop := (dbKeys db).Nodup ∧ PairingOk db

theorem not_mem_dbKeys_of_findById_none (db : Db) (i : UserId)
    (h : findById db i = none) : i ∉ dbKeys db := by
  induction db with
  | nil => simp [dbKeys]
  | cons kv rest ih =>
    obtain ⟨k, u⟩ := kv
    by_cases hk : k = i
    · simp [findById, hk] at h
    · simp only [findById, if_neg hk] at h
      simp only [dbKeys, List.map_cons, List.mem_cons]
      rintro (hik | hmem)
      · exact hk hik.symm
      · exact ih h hmem

theorem inv_register (db : Db) (id : UserId) (code : Option String) (now : Int)
    (hinv : Inv db) (hfresh : findById db id = none) :
    Inv ((id, newUser code now) :: db) := by
  obtain ⟨hnd, hpo⟩ := hinv
  constructor
  · simp only [dbKeys, List.map_cons, List.nodup_cons]
    exact ⟨not_mem_dbKeys_of_findById_none db id hfresh, hnd⟩
  · intro a b u hu hub
    by_cases ha : id = a
    · rw [findById, if_pos ha] at hu
      cases hu
      simp [newUser] at hub
    · rw [findById, if_neg ha] at hu
      obtain ⟨hab, v, hv, hva⟩ := hpo a b u hu hub
      refine ⟨hab, v, ?_, hva⟩
      have hbid : ¬ id = b := by
        intro he
        rw [← he] at hv
        rw [hfresh] at hv
        exact Option.noConfusion hv
      rw [findById, if_neg hbid]
      exact hv

theorem inv_presenceUpdate (db : Db) (id : UserId) (u v : UserRec)
    (hinv : Inv db) (hu : findById db id = some u) (hkeep : v.partnerId = u.partnerId) :
    Inv (updateUser db id v) := by
  obtain ⟨hnd, hpo⟩ := hinv
  refine ⟨by rw [dbKeys_updateUser]; exact hnd, ?_⟩
  intro a b w hw hwb
  rw [findById_updateUser] at hw
  by_cases ha : a = id
  · rw [if_pos ha, hu] at hw
    cases hw
    rw [hkeep] at hwb
    subst ha
    obtain ⟨hab, v', hv', hv'a⟩ := hpo a b u hu hwb
    refine ⟨hab, v', ?_, hv'a⟩
    rw [findById_updateUser, if_neg (fun he => hab he.symm)]
    exact hv'
  · rw [if_neg ha] at hw
    obtain ⟨hab, v', hv', hv'a⟩ := hpo a b w hw hwb
    by_cases hb : b = id
    · subst hb
      rw [hu] at hv'
      cases hv'
      refine ⟨hab, v, ?_, by rw [hkeep]; exact hv'a⟩
      rw [findById_updateUser, if_pos rfl, hu]
      rfl
    · refine ⟨hab, v', ?_, hv'a⟩
      rw [findById_updateUser, if_neg hb]
      exact hv'

theorem inv_link (db : Db) (caller : UserId) (code : Option String)
    (hinv : Inv db) : Inv (linkPartner db caller code).2 := by
  obtain ⟨hnd, hpo⟩ := hinv
  cases code with
  | none => exact ⟨hnd, hpo⟩
  | some c =>
    by_cases hc : c = ""
    · simp only [linkPartner, if_pos hc]
      exact ⟨hnd, hpo⟩
    · simp only [linkPartner, if_neg hc]
      cases hfo : findOneByInvite db (jsToUpper c) with
      | none => exact ⟨hnd, hpo⟩
      | some pr =>
        obtain ⟨pid, p⟩ := pr
        by_cases hself : pid = caller
        · simp only [if_pos hself]
          exact ⟨hnd, hpo⟩
        · simp only [if_neg hself]
          by_cases hpp : p.partnerId.isSome
          · simp only [if_pos hpp]
            exact ⟨hnd, hpo⟩
          · simp only [if_neg hpp]
            cases hu : findById db caller with
            | none => exact ⟨hnd, hpo⟩
            | some u =>
              by_cases hup : u.partnerId.isSome
              · simp only [if_pos hup]
                exact ⟨hnd, hpo⟩
              · simp only [if_neg hup]
                have hpnone : p.partnerId = none := Option.not_isSome_iff_eq_none.mp hpp
                have hunone : u.partnerId = none := Option.not_isSome_iff_eq_none.mp hup
                have hfp : findById db pid = some p :=
                  findById_of_invite db (jsToUpper c) pid p hnd hfo
                set u' : UserRec := { u with partnerId := some pid } with hu'
                set p' : UserRec := { p with partnerId := some caller } with hp'
                have hlook : ∀ j, findById (updateUser (updateUser db caller u') pid p') j =
                    if j = pid then some p' else if j = caller then some u'
                    else findById db j := by
                  intro j
                  rw [findById_updateUser]
                  by_cases hj1 : j = pid
                  · rw [if_pos hj1, if_pos hj1, findById_updateUser, if_neg hself, hfp]
                    rfl
                  · rw [if_neg hj1, if_neg hj1, findById_updateUser]
                    by_cases hj2 : j = caller
                    · rw [if_pos hj2, if_pos hj2, hu]
                      rfl
                    · rw [if_neg hj2, if_neg hj2]
                refine ⟨?_, ?_⟩
                · rw [dbKeys_updateUser, dbKeys_updateUser]
                  exact hnd
                · intro a b w hw hwb
                  rw [hlook] at hw
                  by_cases ha1 : a = pid
                  · rw [if_pos ha1] at hw
                    cases hw
                    simp only [hp'] at hwb
                    cases hwb
                    refine ⟨by rw [ha1]; exact hself, u', ?_, by rw [ha1, hu']⟩
                    rw [hlook, if_neg (fun he => hself he.symm), if_pos rfl]
                  · rw [if_neg ha1] at hw
                    by_cases ha2 : a = caller
                    · rw [if_pos ha2] at hw
                      cases hw
                      simp only [hu'] at hwb
                      cases hwb
                      refine ⟨by rw [ha2]; exact fun he => hself he.symm, p', ?_,
                        by rw [ha2, hp']⟩
                      rw [hlook, if_pos rfl]
                    · rw [if_neg ha2] at hw
                      obtain ⟨hab, v, hv, hva⟩ := hpo a b w hw hwb
                      have hbp : ¬ b = pid := by
                        intro he
                        rw [he, hfp] at hv
                        cases hv
                        rw [hpnone] at hva
                        exact Option.noConfusion hva
                      have hbc : ¬ b = caller := by
                        intro he
                        rw [he, hu] at hv
                        cases hv
                        rw [hunone] at hva
                        exact Option.noConfusion hva
                      refine ⟨hab, v, ?_, hva⟩
                      rw [hlook, if_neg hbp, if_neg hbc]
                      exact hv

theorem reach_inv (db : Db) (h : Reach db) : Inv db := by
  induction h with
  | start => exact ⟨List.nodup_nil, fun a b u hu _ => by simp [findById] at hu⟩
  | register db id code now _ hfresh ih => exact inv_register db id code now ih hfresh
  | presenceUpdate db id u v _ hu hkeep ih => exact inv_presenceUpdate db id u v ih hu hkeep
  | link db caller code _ ih => exact inv_link db caller code ih

/-- Claim C8: in every reachable user collection the pairing relation is
mutually consistent (a partner pointer always has a matching pointer
back), single-valued (the pointer is one field, so at most one partner),
and anti-reflexive; and the linking route fails without any state change
whenever the invite resolves to the caller themselves, to an account that
already has a partner, or the caller already has a partner. -/
theorem pairing_invariant_and_link_guards :
    (∀ db, Reach db →
      (∀ a b u, findById db a = some u → u.partnerId = some b →
        a ≠ b ∧ ∃ v, findById db b = some v ∧ v.partnerId = some a) ∧
      (∀ a b1 b2 u, findById db a = some u → u.partnerId = some b1 →
        u.partnerId = some b2 → b1 = b2)) ∧
    (∀ (db : Db) (caller : UserId) (c : String) (pid : UserId) (p : UserRec),
      findOneByInvite db (jsToUpper c) = some (pid, p) →
      (pid = caller ∨ p.partnerId.isSome = true ∨
        (∃ u, findById db caller = some u ∧ u.partnerId.isSome = true)) →
      (linkPartner db caller (some c)).2 = db ∧
      ∀ q, (linkPartner db caller (some c)).1 ≠ LinkResult.linked q) := by
  constructor
  · intro db h
    refine ⟨(reach_inv db h).2, ?_⟩
    intro a b1 b2 u _ h1 h2
    exact Option.some.inj (h1.symm.trans h2)
  · intro db caller c pid p hfo hbad
    by_cases hc : c = ""
    · refine ⟨by simp [linkPartner, hc], fun q => by simp [linkPartner, hc]⟩
    · by_cases hself : pid = caller
      · refine ⟨?_, fun q => ?_⟩ <;> simp [linkPartner, hc, hfo, hself]
      · by_cases hpp : p.partnerId.isSome
        · refine ⟨?_, fun q => ?_⟩ <;> simp [linkPartner, hc, hfo, hself, hpp]
        · rcases hbad with hbad | hbad | ⟨u, hu, hup⟩
          · exact absurd hbad hself
          · exact absurd hbad hpp
          · refine ⟨?_, fun q => ?_⟩ <;>
              simp [linkPartner, hc, hfo, hself, hpp, hu, hup]

/-- Two freshly registered, unlinked accounts. -/
def dbTwo : Db := [("g", newUser (some "CODEG") 0), ("h", newUser (some "CODEH") 0)]

theorem reach_dbTwo : Reach dbTwo :=
  Reach.register _ "g" (some "CODEG") 0
    (Reach.register _ "h" (some "CODEH") 0 Reach.start rfl) rfl

/-- Witness for C8: after a concrete successful link of `"g"` to `"h"`,
`"h"`'s pointer aims back at `"g"`; and a second link attempt against the
now-taken invite fails leaving the collection untouched. -/
theorem pairing_invariant_and_link_guards_witness :
    (∃ v, findById (linkPartner dbTwo "g" (some "codeh")).2 "h" = some v ∧
      v.partnerId = some "g") ∧
    (linkPartner (linkPartner dbTwo "g" (some "codeh")).2 "g" (some "codeh")).2 =
      (linkPartner dbTwo "g" (some "codeh")).2 := by
  constructor
  · have hreach : Reach (linkPartner dbTwo "g" (some "codeh")).2 :=
      Reach.link dbTwo "g" (some "codeh") reach_dbTwo
    have h1 := (pairing_invariant_and_link_guards.1 _ hreach).1 "g" "h"
      { partnerId := some "h", inviteCode := some "CODEG", lastActiveAt := 0,
        isOnline := false, isTyping := false, typingAt := none }
      (by decide) rfl
    exact h1.2
  · exact (pairing_invariant_and_link_guards.2
      (linkPartner dbTwo "g" (some "codeh")).2 "g" "codeh" "h"
      { partnerId := some "g", inviteCode := some "CODEH", lastActiveAt := 0,
        isOnline := false, isTyping := false, typingAt := none }
      (by decide) (Or.inr (Or.inl (by decide)))).1

end CuddleApi
